import Mathlib

/-!
Verification development for `build_calendar.py`, the FCBQ basketball
schedule-to-ICS converter.  The pure text-processing pipeline
(segmentation of the normalized page text on date lines, per-segment
game extraction, validity filtering, UID construction, ICS event
construction) is embedded below as executable Lean definitions.
HTTP fetching, HTML flattening, YAML config loading and the actual
file write are I/O plumbing outside the embedded scope; the embedding
takes the normalized schedule text (the string the date-split runs on)
as input.
-/

namespace BuildCalendar

/-! ### Python string primitives used by the script -/

/-- The ASCII fragment of Python's whitespace class (used by `str.strip`
and the regex class between words); the inputs handled by the script are
newline-separated ASCII-ish schedule text. -/
def isPySpace (c : Char) : Bool :=
  c = ' ' || c = '\t' || c = '\n' || c = '\r' || c = '\x0b' || c = '\x0c'

/-- `str.strip()` on the underlying character list. -/
def pyStripList (l : List Char) : List Char :=
  ((l.dropWhile isPySpace).reverse.dropWhile isPySpace).reverse

/-- Python `str.strip()`. -/
def pyStrip (s : String) : String := ⟨pyStripList s.data⟩

/-- Whether `pat` is a prefix of `l` (character lists). -/
def listStartsWith : List Char → List Char → Bool
  | [], _ => true
  | _ :: _, [] => false
  | p :: ps, c :: cs => p = c && listStartsWith ps cs

/-- Helper scan for the Python substring test. -/
def pyInAux (pat : List Char) : List Char → Bool
  | [] => listStartsWith pat []
  | c :: t => listStartsWith pat (c :: t) || pyInAux pat t

/-- Python's `k in s` substring containment test. -/
def pyIn (k s : String) : Bool := pyInAux k.data s.data

/-- Python `str.lower()` (ASCII folding; the script compares team names
against an ASCII filter string). -/
def pyLower (s : String) : String := ⟨s.data.map Char.toLower⟩

/-- Helper for the newline split (`cur` is the current piece, reversed). -/
def splitNlAux : List Char → List Char → List String
  | cur, [] => [⟨cur.reverse⟩]
  | cur, c :: t =>
    if c = '\n' then ⟨cur.reverse⟩ :: splitNlAux [] t
    else splitNlAux (c :: cur) t

/-- Python `text.split("\n")`. -/
def pyLines (s : String) : List String := splitNlAux [] s.data

/-- Fuel-driven single-pattern replacement; the fuel is the input length,
which suffices because every step consumes at least one character. -/
def replaceFuel (pat rep : List Char) : Nat → List Char → List Char
  | 0, l => l
  | _ + 1, [] => []
  | fuel + 1, c :: t =>
    if listStartsWith pat (c :: t) then
      rep ++ replaceFuel pat rep fuel (List.drop pat.length (c :: t))
    else c :: replaceFuel pat rep fuel t

/-- Python `s.replace(pat, rep)` for a non-empty pattern (the script only
replaces the non-empty `format` placeholders). -/
def pyReplace (s pat rep : String) : String :=
  if pat.data.isEmpty then s
  else ⟨replaceFuel pat.data rep.data s.data.length s.data⟩

/-! ### The token patterns of the parser -/

/-- A full-line match of `^\d{2}/\d{2}/\d{4}$` (the date token used both
by the segment splitter and by the in-segment date checks). -/
def isDateLine (s : String) : Bool :=
  match s.data with
  | [d1, d2, s1, m1, m2, s2, y1, y2, y3, y4] =>
      d1.isDigit && d2.isDigit && s1 = '/' && m1.isDigit && m2.isDigit &&
      s2 = '/' && y1.isDigit && y2.isDigit && y3.isDigit && y4.isDigit
  | _ => false

/-- A full-line match of `^\d{1,2}:\d{2}$` (the bare time token). -/
def isTimeToken (s : String) : Bool :=
  match s.data with
  | [h1, ':', m1, m2] => h1.isDigit && m1.isDigit && m2.isDigit
  | [h1, h2, ':', m1, m2] =>
      h1.isDigit && h2.isDigit && m1.isDigit && m2.isDigit
  | _ => false

/-! ### Block segmentation

`date_pat = (^|\n)(\d{2}/\d{2}/\d{4})(?=\n)` with `re.M`, then
`date_pat.split(container_text)` and iteration over the
(date, following-text) pairs.  A match requires the date token to be
preceded by start-of-text or a newline and followed by a newline, i.e.
the token occupies a whole line that is not the last line of the text.
On the line decomposition of the text this yields the segmentation
below: a segment starts at each such boundary line and its body is
every line strictly before the next boundary line. -/

def segAux : List String → Option (String × List String) →
    List (String × List String)
  | [], none => []
  | [], some p => [(p.1, p.2.reverse)]
  | l :: rest, acc =>
    if isDateLine l && !rest.isEmpty then
      match acc with
      | none => segAux rest (some (l, []))
      | some p => (p.1, p.2.reverse) :: segAux rest (some (l, []))
    else
      match acc with
      | none => segAux rest none
      | some p => segAux rest (some (p.1, l :: p.2))

/-- The (dateString, bodyLines) segments of the normalized text lines. -/
def segments (ls : List String) : List (String × List String) :=
  segAux ls none

/-! ### Dates, times and timestamps

`dtparser.parse(f"{date_str} {time_line}", dayfirst=True)` followed by
`tz.localize` and `+ timedelta(minutes=default_minutes)`.  A naive wall
clock instant is a count of minutes (proleptic Gregorian); an aware
instant additionally carries the timezone name the script localized to
(pytz attaches the zone; the script never converts between zones). -/

def isLeap (y : Nat) : Bool := (y % 4 = 0 && y % 100 ≠ 0) || y % 400 = 0

def daysInMonth (y m : Nat) : Nat :=
  if m = 2 then (if isLeap y then 29 else 28)
  else if m = 4 || m = 6 || m = 9 || m = 11 then 30
  else 31

/-- Day count of a proleptic Gregorian date (era-based civil-date
algorithm; day 0 is 0000-03-01, so 1970-01-01 is day 719468). -/
def daysFromCivil (y m d : Nat) : Nat :=
  let yy := if m ≤ 2 then y - 1 else y
  let era := yy / 400
  let yoe := yy % 400
  let mp := (m + 9) % 12
  let doy := (153 * mp + 2) / 5 + d - 1
  let doe := yoe * 365 + yoe / 4 - yoe / 100 + doy
  era * 146097 + doe

/-- Naive wall-clock minutes of `y-m-d hh:mi`. -/
def mkWallMinutes (y m d hh mi : Nat) : Int :=
  Int.ofNat (daysFromCivil y m d * 1440 + hh * 60 + mi)

/-- A (possibly timezone-aware) Python datetime as used by the script:
wall-clock minutes plus the attached timezone name, if any. -/
structure PyDateTime where
  wallMinutes : Int
  tz : Option String
deriving DecidableEq, Repr

def digitVal (c : Char) : Nat := c.toNat - '0'.toNat

/-- The day/day-month/year digits of a `DD/MM/YYYY` token. -/
def parseDateFields (s : String) : Option (Nat × Nat × Nat) :=
  match s.data with
  | [d1, d2, '/', m1, m2, '/', y1, y2, y3, y4] =>
    if d1.isDigit && d2.isDigit && m1.isDigit && m2.isDigit &&
       y1.isDigit && y2.isDigit && y3.isDigit && y4.isDigit then
      some (10 * digitVal d1 + digitVal d2, 10 * digitVal m1 + digitVal m2,
        1000 * digitVal y1 + 100 * digitVal y2 + 10 * digitVal y3 + digitVal y4)
    else none
  | _ => none

/-- Hour/minute of an `H:MM` or `HH:MM` token (after stripping, as the
tokenizer of the date parser ignores surrounding whitespace). -/
def parseTimeFields (s : String) : Option (Nat × Nat) :=
  match (pyStrip s).data with
  | [h1, ':', m1, m2] =>
    if h1.isDigit && m1.isDigit && m2.isDigit then
      some (digitVal h1, 10 * digitVal m1 + digitVal m2)
    else none
  | [h1, h2, ':', m1, m2] =>
    if h1.isDigit && h2.isDigit && m1.isDigit && m2.isDigit then
      some (10 * digitVal h1 + digitVal h2, 10 * digitVal m1 + digitVal m2)
    else none
  | _ => none

/-- dateutil's day-first resolution of the two leading numbers of
`DD/MM/YYYY`: with `dayfirst=True` the pair is read as (day, month)
when the second number can be a month, otherwise as (month, day);
an out-of-range result is a parse error.  Returns (day, month). -/
def resolveDayMonth (a b y : Nat) : Option (Nat × Nat) :=
  if 1 ≤ b ∧ b ≤ 12 ∧ 1 ≤ a ∧ a ≤ daysInMonth y b then some (a, b)
  else if 1 ≤ a ∧ a ≤ 12 ∧ 1 ≤ b ∧ b ≤ daysInMonth y a then some (b, a)
  else none

/-- `dtparser.parse(f"{date_str} {time_line}", dayfirst=True)`: the naive
wall-clock minutes, or `none` when the parse raises (the script then
skips the segment). -/
def tryParseStart (dateStr timeStr : String) : Option Int :=
  match parseDateFields dateStr, parseTimeFields timeStr with
  | some (a, b, y), some (hh, mi) =>
    match resolveDayMonth a b y with
    | some (d, mo) =>
      if 1 ≤ y ∧ hh ≤ 23 ∧ mi ≤ 59 then
        some (mkWallMinutes y mo d hh mi)
      else none
    | none => none
  | _, _ => none

/-! ### Per-segment extraction -/

/-- The non-blank body lines of a segment:
`[ln for ln in after.split("\n") if ln.strip()]`. -/
def bodyLines (seg : String × List String) : List String :=
  seg.2.filter fun ln => pyStrip ln ≠ ""

/-- Time-line selection: the stripped first line when it is a bare time
token, otherwise the first (raw) line whose strip is a bare time token. -/
def pickTime : List String → Option String
  | [] => none
  | first :: rest =>
    if isTimeToken (pyStrip first) then some (pyStrip first)
    else (first :: rest).find? fun ln => isTimeToken (pyStrip ln)

/-- The two section-label keywords skipped by the candidate scan. -/
def hasLabelKeyword (s : String) : Bool :=
  pyIn "Categoria" s || pyIn "Camp de joc" s

/-- Candidate (team/venue) line selection over the scan list
(`lines[1:]` in the script): stop at a date line, skip keyword lines,
else take the stripped line. -/
def chooseCandidate : List String → Option String
  | [] => none
  | ln :: rest =>
    if isDateLine (pyStrip ln) then none
    else if hasLabelKeyword (pyStrip ln) then chooseCandidate rest
    else some (pyStrip ln)

def hasDigitOrComma (s : String) : Bool :=
  s.data.any fun c => c = ',' || c.isDigit

/-- Address-line selection over the scan list (`lines[2:]` in the
script): stop at a date or bare time line, else take the first stripped
line containing a digit or a comma; empty when none is found. -/
def chooseAddress : List String → String
  | [] => ""
  | ln :: rest =>
    if isDateLine (pyStrip ln) || isTimeToken (pyStrip ln) then ""
    else if hasDigitOrComma (pyStrip ln) then pyStrip ln
    else chooseAddress rest

/-- `re.split` on runs of at least `k` whitespace characters (the script
uses `\s{2,}` and falls back to `\s{1,}`).  `acc` collects finished
pieces (reversed), `cur` the current piece (reversed), `pend` a pending
whitespace run (reversed) that is kept inside the piece when shorter
than `k`. -/
def splitWsGe (k : Nat) : List (List Char) → List Char → List Char →
    List Char → List (List Char)
  | acc, cur, pend, [] =>
    if k ≤ pend.length then (([] : List Char) :: cur.reverse :: acc).reverse
    else ((pend ++ cur).reverse :: acc).reverse
  | acc, cur, pend, c :: t =>
    if isPySpace c then splitWsGe k acc cur (c :: pend) t
    else if k ≤ pend.length then splitWsGe k (cur.reverse :: acc) [c] [] t
    else splitWsGe k acc (c :: (pend ++ cur)) [] t

def pySplitWs (k : Nat) (s : String) : List String :=
  (splitWsGe k [] [] [] s.data).map fun l => ⟨l⟩

/-- The `chunks` list for a candidate line: split on 2+ whitespace, and
if that yields fewer than two pieces re-split on 1+ whitespace. -/
def splitChunks (cand : String) : List String :=
  let c2 := pySplitWs 2 cand
  if c2.length < 2 then pySplitWs 1 cand else c2

/-- `home = chunks[0].strip()` when at least two chunks exist. -/
def homeOpt : Option String → Option String
  | none => none
  | some cand =>
    if 2 ≤ (splitChunks cand).length then
      some (pyStrip ((splitChunks cand).getD 0 ""))
    else none

/-- `away = chunks[1].strip()` when at least two chunks exist. -/
def awayOpt : Option String → Option String
  | none => none
  | some cand =>
    if 2 ≤ (splitChunks cand).length then
      some (pyStrip ((splitChunks cand).getD 1 ""))
    else none

/-- `venue_name = chunks[-1].strip()` when at least three chunks exist,
else the empty string it was initialized to. -/
def venueNameOf : Option String → String
  | none => ""
  | some cand =>
    if 3 ≤ (splitChunks cand).length then
      pyStrip ((splitChunks cand).getLast?.getD "")
    else ""

/-- The human-friendly venue string: venue name, joined with the address
by an em dash when the address is non-empty and not already contained in
the venue name. -/
def venueFull (venue_name address_line : String) : String :=
  if address_line ≠ "" && !pyIn address_line venue_name then
    if venue_name ≠ "" then venue_name ++ " — " ++ address_line
    else address_line
  else venue_name

/-- One parsed game, mirroring the dict appended to `games`. -/
structure Game where
  game_id : String
  home : String
  away : String
  start : PyDateTime
  end_ : PyDateTime
  venue : String
  location : String
  url : String
deriving DecidableEq, Repr

/-- Assembly of the game dict from the extracted pieces. -/
def mkGame (date_str time_line : String) (wall : Int) (tzname : String)
    (default_minutes : Int) (url : String) (cand? : Option String)
    (address_line : String) : Game :=
  { game_id := date_str ++ "|" ++ time_line ++ "|" ++ (homeOpt cand?).getD ""
      ++ "|" ++ (awayOpt cand?).getD "" ++ "|" ++ venueNameOf cand?
    home := pyStrip ((homeOpt cand?).getD "")
    away := pyStrip ((awayOpt cand?).getD "")
    start := ⟨wall, some tzname⟩
    end_ := ⟨wall + default_minutes, some tzname⟩
    venue := pyStrip (venueNameOf cand?)
    location := pyStrip (venueFull (venueNameOf cand?) address_line)
    url := url }

/-- Extraction from one (dateString, bodyLines) segment: `none` exactly
when the script executes `continue` for the segment (no non-blank line,
no time line, or a failing date/time parse); the candidate scan starts
at the second non-blank line and the address scan at the third. -/
def extractGame (tzname : String) (default_minutes : Int) (url : String)
    (seg : String × List String) : Option Game :=
  match pickTime (bodyLines seg) with
  | none => none
  | some time_line =>
    match tryParseStart seg.1 time_line with
    | none => none
    | some wall =>
      some (mkGame seg.1 time_line wall tzname default_minutes url
        (chooseCandidate ((bodyLines seg).drop 1))
        (chooseAddress ((bodyLines seg).drop 2)))

/-- The pure core of `parse_fcbq_schedule`: segment the normalized
schedule text, extract a game per segment, and drop records with a
missing team.  `text` is the normalized text the date-split runs on
(the fetch and HTML flattening are upstream I/O). -/
def parse_fcbq_schedule (text tzname : String) (default_minutes : Int)
    (url : String) : List Game :=
  ((segments (pyLines text)).filterMap
      (extractGame tzname default_minutes url)).filter
    fun g => g.home ≠ "" && g.away ≠ ""

/-! ### SHA-1 and the event UID

`sha_uid(s) = hashlib.sha1(s.encode("utf-8")).hexdigest() + "@auto-fixtures"`.
SHA-1 is embedded below over byte lists (`Nat` values `< 256`), words are
`Nat` reduced modulo `2^32`. -/

/-- UTF-8 encoding of one code point. -/
def utf8Bytes (c : Char) : List Nat :=
  let n := c.toNat
  if n < 128 then [n]
  else if n < 2048 then [192 + n / 64, 128 + n % 64]
  else if n < 65536 then [224 + n / 4096, 128 + (n / 64) % 64, 128 + n % 64]
  else [240 + n / 262144, 128 + (n / 4096) % 64, 128 + (n / 64) % 64,
    128 + n % 64]

/-- `s.encode("utf-8")` as a byte list. -/
def strBytes (s : String) : List Nat :=
  s.data.foldr (fun c acc => utf8Bytes c ++ acc) []

def w32 (n : Nat) : Nat := n % 4294967296

def rotl (k n : Nat) : Nat := w32 ((n <<< k) ||| (n >>> (32 - k)))

/-- 64-bit big-endian byte encoding (of the message bit length). -/
def lenBytes (n : Nat) : List Nat :=
  [(n >>> 56) % 256, (n >>> 48) % 256, (n >>> 40) % 256, (n >>> 32) % 256,
   (n >>> 24) % 256, (n >>> 16) % 256, (n >>> 8) % 256, n % 256]

/-- Merkle–Damgård padding: `0x80`, zeros to 56 mod 64, then the bit
length; the result's length is a positive multiple of 64. -/
def padMessage (msg : List Nat) : List Nat :=
  msg ++ [128] ++ List.replicate ((119 - msg.length % 64) % 64) 0 ++
    lenBytes (8 * msg.length)

/-- Cut the byte stream into 64-byte chunks: `cur` holds the bytes of
the current chunk (reversed) and `k` its remaining capacity. -/
def chunksAux : List Nat → List Nat → Nat → List (List Nat)
  | [], cur, _ => if cur.isEmpty then [] else [cur.reverse]
  | b :: t, cur, k =>
    match k with
    | 0 => cur.reverse :: chunksAux t [b] 63
    | k' + 1 => chunksAux t (b :: cur) k'

def toChunks (l : List Nat) : List (List Nat) := chunksAux l [] 64

/-- Big-endian 32-bit words of a 64-byte chunk. -/
def bytesToWords : List Nat → List Nat
  | a :: b :: c :: d :: rest =>
    (a * 16777216 + b * 65536 + c * 256 + d) :: bytesToWords rest
  | _ => []

/-- Message-schedule extension: `acc` holds the words so far, newest
first; 64 more words are produced from the 16 chunk words. -/
def extendAux : Nat → List Nat → List Nat
  | 0, acc => acc.reverse
  | k + 1, acc =>
    extendAux k
      (rotl 1 (acc.getD 2 0 ^^^ acc.getD 7 0 ^^^ acc.getD 13 0 ^^^
        acc.getD 15 0) :: acc)

def extendWords (ws : List Nat) : List Nat := extendAux 64 ws.reverse

/-- Round function and constant for round `t`. -/
def fK (t b c d : Nat) : Nat × Nat :=
  if t < 20 then ((b &&& c) ||| ((b ^^^ 4294967295) &&& d), 1518500249)
  else if t < 40 then (b ^^^ c ^^^ d, 1859775393)
  else if t < 60 then ((b &&& c) ||| (b &&& d) ||| (c &&& d), 2400959708)
  else (b ^^^ c ^^^ d, 3395469782)

def rounds : Nat → List Nat → Nat × Nat × Nat × Nat × Nat →
    Nat × Nat × Nat × Nat × Nat
  | _, [], st => st
  | t, w :: ws, (a, b, c, d, e) =>
    rounds (t + 1) ws
      (w32 (rotl 5 a + (fK t b c d).1 + e + (fK t b c d).2 + w), a,
        rotl 30 b, c, d)

def processChunk (st : Nat × Nat × Nat × Nat × Nat) (chunk : List Nat) :
    Nat × Nat × Nat × Nat × Nat :=
  match rounds 0 (extendWords (bytesToWords chunk)) st with
  | (a, b, c, d, e) =>
    (w32 (st.1 + a), w32 (st.2.1 + b), w32 (st.2.2.1 + c),
      w32 (st.2.2.2.1 + d), w32 (st.2.2.2.2 + e))

/-- The five 32-bit state words of the SHA-1 of a byte message. -/
def sha1Words (msg : List Nat) : Nat × Nat × Nat × Nat × Nat :=
  (toChunks (padMessage msg)).foldl processChunk
    (1732584193, 4023233417, 2562383102, 271733878, 3285377520)

/-- Big-endian bytes of one 32-bit word. -/
def wordBytes (n : Nat) : List Nat :=
  [(n >>> 24) % 256, (n >>> 16) % 256, (n >>> 8) % 256, n % 256]

/-- The 20-byte SHA-1 digest of the UTF-8 encoding of a string. -/
def sha1Digest (s : String) : List Nat :=
  wordBytes (sha1Words (strBytes s)).1 ++
  wordBytes (sha1Words (strBytes s)).2.1 ++
  wordBytes (sha1Words (strBytes s)).2.2.1 ++
  wordBytes (sha1Words (strBytes s)).2.2.2.1 ++
  wordBytes (sha1Words (strBytes s)).2.2.2.2

def hexCharsLower : List Char := "0123456789abcdef".data

def hexDigit (n : Nat) : Char := hexCharsLower.getD (n % 16) '0'

/-- Lowercase hex encoding, two characters per byte. -/
def bytesToHexChars : List Nat → List Char
  | [] => []
  | b :: t => hexDigit (b / 16) :: hexDigit (b % 16) :: bytesToHexChars t

/-- `hashlib.sha1(s.encode("utf-8")).hexdigest()`. -/
def sha1Hex (s : String) : String := ⟨bytesToHexChars (sha1Digest s)⟩

/-- `sha_uid` from the script. -/
def sha_uid (s : String) : String := sha1Hex s ++ "@auto-fixtures"

/-! ### ICS events and the main pipeline -/

/-- One VEVENT as assembled by `build_ics` (serialization and the file
write are external collaborators). -/
structure IcsEvent where
  summary : String
  dtstart : PyDateTime
  dtend : PyDateTime
  location : Option String
  description : String
  uid : String
  url : Option String
deriving DecidableEq, Repr

/-- `tpl.format(home=..., away=..., venue=...)` for templates using the
plain keyword placeholders. -/
def formatTitle (tpl home away venue : String) : String :=
  pyReplace (pyReplace (pyReplace tpl "{home}" home) "{away}" away)
    "{venue}" venue

def mkEvent (tpl : String) (g : Game) : IcsEvent :=
  { summary := formatTitle tpl g.home g.away g.venue
    dtstart := g.start
    dtend := g.end_
    location := if g.location ≠ "" then some g.location else none
    description := if g.url ≠ "" then g.url else ""
    uid := sha_uid g.game_id
    url := if g.url ≠ "" then some g.url else none }

/-- The event list serialized by `build_ics`. -/
def build_ics (tpl : String) (games : List Game) : List IcsEvent :=
  games.map (mkEvent tpl)

/-- The game list of `main` after the optional team filter (`incRaw` is
the configured `filters.include_team` value, `""` when absent). -/
def mainGames (text tzname : String) (default_minutes : Int)
    (url incRaw : String) : List Game :=
  let games := parse_fcbq_schedule text tzname default_minutes url
  let inc := pyLower (pyStrip incRaw)
  if inc ≠ "" then
    games.filter fun g => pyIn inc (pyLower g.home) || pyIn inc (pyLower g.away)
  else games

/-- The UID column of the emitted calendar, as a function of the run
inputs (used to state the determinism law). -/
def run_uids (text tzname : String) (default_minutes : Int)
    (url incRaw tpl : String) : List String :=
  (build_ics tpl (mainGames text tzname default_minutes url incRaw)).map
    IcsEvent.uid

/-! ### A date-granularity model of the Europe/Madrid UTC offset

pytz is an external collaborator; for the end-to-end example the claim
fixes the offset `+02:00`.  Europe/Madrid is CET (UTC+1) with EU summer
time (UTC+2) between the last Sunday of March and the last Sunday of
October; the model is at date granularity (the transition hours on the
two switch days are not represented, and no claim touches them). -/

/-- Day of week, 0 = Sunday (day 719468 = 1970-01-01 was a Thursday). -/
def dayOfWeekSun0 (y m d : Nat) : Nat := (daysFromCivil y m d + 3) % 7

def lastSundayOfMonth (y m : Nat) : Nat :=
  daysInMonth y m - dayOfWeekSun0 y m (daysInMonth y m)

def madridOffsetMinutes (y m d : Nat) : Int :=
  if (4 ≤ m ∧ m ≤ 9) ∨ (m = 3 ∧ lastSundayOfMonth y 3 ≤ d) ∨
      (m = 10 ∧ d < lastSundayOfMonth y 10) then 120
  else 60

/-! ### Helper lemmas: stripping is idempotent -/

theorem dropWhile_dropWhile (p : Char → Bool) (l : List Char) :
    (l.dropWhile p).dropWhile p = l.dropWhile p := by
  induction l with
  | nil => rfl
  | cons a t ih =>
    rw [List.dropWhile_cons]
    cases h : p a with
    | true => simpa using ih
    | false => simp [List.dropWhile_cons, h]

theorem head?_dropWhile_false (p : Char → Bool) (l : List Char) :
    ∀ a, (l.dropWhile p).head? = some a → p a = false := by
  induction l with
  | nil => intro a h; simp at h
  | cons x t ih =>
    intro a h
    rw [List.dropWhile_cons] at h
    cases hp : p x with
    | true => rw [hp, if_pos rfl] at h; exact ih a h
    | false =>
      rw [hp, if_neg Bool.false_ne_true] at h
      simp only [List.head?_cons, Option.some.injEq] at h
      exact h ▸ hp

theorem getLast?_dropWhile (p : Char → Bool) (l : List Char)
    (h : l.dropWhile p ≠ []) : (l.dropWhile p).getLast? = l.getLast? := by
  induction l with
  | nil => simp at h
  | cons a t ih =>
    rw [List.dropWhile_cons] at h ⊢
    cases hp : p a with
    | false => rw [if_neg Bool.false_ne_true]
    | true =>
      rw [hp] at h
      rw [if_pos rfl] at h ⊢
      cases t with
      | nil => simp at h
      | cons b t2 => rw [List.getLast?_cons_cons]; exact ih h

theorem dropWhile_eq_self_of_head (p : Char → Bool) (l : List Char)
    (h : ∀ a, l.head? = some a → p a = false) : l.dropWhile p = l := by
  cases l with
  | nil => rfl
  | cons a t => rw [List.dropWhile_cons, h a rfl]; simp

theorem pyStripList_idem (l : List Char) :
    pyStripList (pyStripList l) = pyStripList l := by
  unfold pyStripList
  set p := isPySpace with hp
  set A := l.dropWhile p with hA
  set B := A.reverse.dropWhile p with hB
  by_cases hBnil : B = []
  · simp [hBnil]
  · have hstep : B.reverse.dropWhile p = B.reverse := by
      apply dropWhile_eq_self_of_head
      intro a ha
      rw [List.head?_reverse] at ha
      rw [hB, getLast?_dropWhile p A.reverse hBnil, List.getLast?_reverse] at ha
      exact head?_dropWhile_false p l a (hA ▸ ha)
    rw [hstep, List.reverse_reverse, hB, dropWhile_dropWhile]

theorem pyStrip_pyStrip (s : String) : pyStrip (pyStrip s) = pyStrip s := by
  unfold pyStrip
  exact congrArg String.mk (pyStripList_idem s.data)

theorem homeOpt_stripped (c : Option String) :
    pyStrip ((homeOpt c).getD "") = (homeOpt c).getD "" := by
  cases c with
  | none => rfl
  | some cand =>
    unfold homeOpt
    by_cases h : 2 ≤ (splitChunks cand).length
    · simp only [if_pos h, Option.getD_some]
      exact pyStrip_pyStrip _
    · simp only [if_neg h]; rfl

theorem awayOpt_stripped (c : Option String) :
    pyStrip ((awayOpt c).getD "") = (awayOpt c).getD "" := by
  cases c with
  | none => rfl
  | some cand =>
    unfold awayOpt
    by_cases h : 2 ≤ (splitChunks cand).length
    · simp only [if_pos h, Option.getD_some]
      exact pyStrip_pyStrip _
    · simp only [if_neg h]; rfl

theorem venueNameOf_stripped (c : Option String) :
    pyStrip (venueNameOf c) = venueNameOf c := by
  cases c with
  | none => rfl
  | some cand =>
    unfold venueNameOf
    by_cases h : 3 ≤ (splitChunks cand).length
    · simp only [if_pos h]
      exact pyStrip_pyStrip _
    · simp only [if_neg h]; rfl

/-! ### Helper lemmas: shape of a successful extraction -/

theorem extractGame_some {tzname url : String} {m : Int}
    {seg : String × List String} {g : Game}
    (h : extractGame tzname m url seg = some g) :
    ∃ tl wall, pickTime (bodyLines seg) = some tl ∧
      tryParseStart seg.1 tl = some wall ∧
      g = mkGame seg.1 tl wall tzname m url
        (chooseCandidate ((bodyLines seg).drop 1))
        (chooseAddress ((bodyLines seg).drop 2)) := by
  unfold extractGame at h
  cases hpt : pickTime (bodyLines seg) with
  | none => rw [hpt] at h; simp at h
  | some tl =>
    rw [hpt] at h
    have h' : (match tryParseStart seg.1 tl with
        | none => none
        | some wall =>
          some (mkGame seg.1 tl wall tzname m url
            (chooseCandidate ((bodyLines seg).drop 1))
            (chooseAddress ((bodyLines seg).drop 2)))) = some g := h
    cases hps : tryParseStart seg.1 tl with
    | none => rw [hps] at h'; simp at h'
    | some wall =>
      rw [hps] at h'
      exact ⟨tl, wall, rfl, hps, (Option.some_inj.mp h').symm⟩

/-- Every game in the parse result comes from a successful extraction
and passes the team filter. -/
theorem mem_parse {text tzname url : String} {m : Int} {g : Game}
    (h : g ∈ parse_fcbq_schedule text tzname m url) :
    (∃ seg ∈ segments (pyLines text), extractGame tzname m url seg = some g) ∧
      g.home ≠ "" ∧ g.away ≠ "" := by
  unfold parse_fcbq_schedule at h
  have h1 := List.mem_filter.mp h
  have h2 := List.mem_filterMap.mp h1.1
  refine ⟨h2, ?_, ?_⟩
  · have := h1.2
    simp only [Bool.and_eq_true, decide_eq_true_eq] at this
    exact this.1
  · have := h1.2
    simp only [Bool.and_eq_true, decide_eq_true_eq] at this
    exact this.2

/-! ### Concrete inputs used by the end-to-end claims -/

/-- The normalized text of the end-to-end example segment. -/
def c1Text : String :=
  "04/10/2025\n15:30\nCE INFANT JESUS A  LIMA-HORTA BARCELONA  " ++
  "3A DIVISIO  PAVELLO INFANT JESUS\nTRAVESSERA DE GRACIA 57-63"

/-- The game record the end-to-end example must produce. -/
def c1Game : Game :=
  { game_id := "04/10/2025|15:30|CE INFANT JESUS A|LIMA-HORTA BARCELONA|" ++
      "PAVELLO INFANT JESUS"
    home := "CE INFANT JESUS A"
    away := "LIMA-HORTA BARCELONA"
    start := ⟨mkWallMinutes 2025 10 4 15 30, some "Europe/Madrid"⟩
    end_ := ⟨mkWallMinutes 2025 10 4 17 0, some "Europe/Madrid"⟩
    venue := "PAVELLO INFANT JESUS"
    location := "PAVELLO INFANT JESUS — TRAVESSERA DE GRACIA 57-63"
    url := "" }

/-- C1: the segment with date line `04/10/2025` and body lines
`["15:30", "CE INFANT JESUS A  LIMA-HORTA BARCELONA  3A DIVISIO  PAVELLO
INFANT JESUS", "TRAVESSERA DE GRACIA 57-63"]`, with default duration 90
minutes and timezone `Europe/Madrid`, yields exactly one game record
with home `CE INFANT JESUS A`, away `LIMA-HORTA BARCELONA`, venue name
`PAVELLO INFANT JESUS`, location `PAVELLO INFANT JESUS — TRAVESSERA DE
GRACIA 57-63`, start at wall clock 2025-10-04 15:30 and end at wall
clock 2025-10-04 17:00, both carrying the `Europe/Madrid` timezone,
whose UTC offset on that date is +02:00 (120 minutes). -/
theorem C1_end_to_end :
    parse_fcbq_schedule c1Text "Europe/Madrid" 90 "" = [c1Game] ∧
    c1Game.end_.wallMinutes = c1Game.start.wallMinutes + 90 ∧
    madridOffsetMinutes 2025 10 4 = 120 := by
  refine ⟨?_, by decide, by decide⟩
  decide

/-- The body lines of the end-to-end example segment. -/
def c1Body : List String :=
  ["15:30",
   "CE INFANT JESUS A  LIMA-HORTA BARCELONA  3A DIVISIO  PAVELLO INFANT JESUS",
   "TRAVESSERA DE GRACIA 57-63"]

/-- Filtering by team keeps only games from the parse result. -/
theorem mem_mainGames {text tzname url incRaw : String} {m : Int} {g : Game}
    (h : g ∈ mainGames text tzname m url incRaw) :
    g ∈ parse_fcbq_schedule text tzname m url := by
  simp only [mainGames] at h
  by_cases hc : pyLower (pyStrip incRaw) ≠ ""
  · rw [if_pos hc] at h; exact (List.mem_filter.mp h).1
  · rw [if_neg hc] at h; exact h

/-- C2: every game returned by the parser has a home and an away team
that are non-empty after whitespace trimming; every serialized event
comes from such a game, and no event is built from a discarded record
(one event per retained game). -/
theorem C2_teams_nonempty (text tzname : String) (m : Int)
    (url incRaw tpl : String) :
    (∀ g ∈ parse_fcbq_schedule text tzname m url,
      pyStrip g.home ≠ "" ∧ pyStrip g.away ≠ "") ∧
    (∀ e ∈ build_ics tpl (mainGames text tzname m url incRaw),
      ∃ g ∈ parse_fcbq_schedule text tzname m url,
        e = mkEvent tpl g ∧ pyStrip g.home ≠ "" ∧ pyStrip g.away ≠ "") ∧
    (build_ics tpl (mainGames text tzname m url incRaw)).length =
      (mainGames text tzname m url incRaw).length := by
  have key : ∀ g ∈ parse_fcbq_schedule text tzname m url,
      pyStrip g.home ≠ "" ∧ pyStrip g.away ≠ "" := by
    intro g hg
    obtain ⟨⟨seg, hseg, hex⟩, hh, ha⟩ := mem_parse hg
    obtain ⟨tl, wall, hpt, hps, hgeq⟩ := extractGame_some hex
    have hsh : pyStrip g.home = g.home := by
      rw [hgeq]; exact pyStrip_pyStrip _
    have hsa : pyStrip g.away = g.away := by
      rw [hgeq]; exact pyStrip_pyStrip _
    rw [hsh, hsa]; exact ⟨hh, ha⟩
  refine ⟨key, ?_, List.length_map _ _⟩
  intro e he
  obtain ⟨g, hgmem, rfl⟩ := List.mem_map.mp he
  have hgp := mem_mainGames hgmem
  exact ⟨g, hgp, rfl, key g hgp⟩

theorem C2_witness :
    pyStrip c1Game.home ≠ "" ∧ pyStrip c1Game.away ≠ "" :=
  (C2_teams_nonempty c1Text "Europe/Madrid" 90 "" "" "").1 c1Game (by decide)

/-- C3: the emitted unique identifiers are a pure function of the page
text and the configuration (running twice on byte-identical text yields
byte-identical identifiers); each identifier is the SHA-1 hex digest of
the identity key plus the fixed namespace suffix, and each identity key
is the `|`-joined concatenation of date string, time line, home, away
and venue name. -/
theorem C3_deterministic_uids :
    (∀ t₁ t₂ tzname m url incRaw tpl, t₁ = t₂ →
      run_uids t₁ tzname m url incRaw tpl =
        run_uids t₂ tzname m url incRaw tpl) ∧
    (∀ text tzname m url incRaw tpl,
      run_uids text tzname m url incRaw tpl =
        (mainGames text tzname m url incRaw).map
          fun g => sha1Hex g.game_id ++ "@auto-fixtures") ∧
    (∀ tzname m url seg g, extractGame tzname m url seg = some g →
      ∃ tl, pickTime (bodyLines seg) = some tl ∧
        g.game_id = seg.1 ++ "|" ++ tl ++ "|" ++ g.home ++ "|" ++ g.away ++
          "|" ++ g.venue) := by
  refine ⟨?_, ?_, ?_⟩
  · intro t₁ t₂ tzname m url incRaw tpl h
    rw [h]
  · intro text tzname m url incRaw tpl
    simp only [run_uids, build_ics, List.map_map]
    rfl
  · intro tzname m url seg g hex
    obtain ⟨tl, wall, hpt, hps, hgeq⟩ := extractGame_some hex
    refine ⟨tl, hpt, ?_⟩
    rw [hgeq]
    simp only [mkGame]
    rw [homeOpt_stripped, awayOpt_stripped, venueNameOf_stripped]

theorem C3_witness :
    run_uids c1Text "Europe/Madrid" 90 "" "" "{home}" =
      run_uids c1Text "Europe/Madrid" 90 "" "" "{home}" ∧
    ∃ tl, pickTime (bodyLines ("04/10/2025", c1Body)) = some tl ∧
      c1Game.game_id = "04/10/2025" ++ "|" ++ tl ++ "|" ++ c1Game.home ++
        "|" ++ c1Game.away ++ "|" ++ c1Game.venue :=
  ⟨C3_deterministic_uids.1 c1Text c1Text "Europe/Madrid" 90 "" "" "{home}" rfl,
   C3_deterministic_uids.2.2 "Europe/Madrid" 90 "" ("04/10/2025", c1Body)
     c1Game (by decide)⟩

/-! ### First-match characterizations of the candidate and address scans -/

theorem chooseCandidate_spec (ls : List String) (c : String)
    (h : chooseCandidate ls = some c) :
    ∃ i, ∃ hi : i < ls.length, c = pyStrip (ls.get ⟨i, hi⟩) ∧
      isDateLine c = false ∧ hasLabelKeyword c = false ∧
      ∀ j, ∀ hj : j < i,
        isDateLine (pyStrip (ls.get ⟨j, Nat.lt_trans hj hi⟩)) = false ∧
        hasLabelKeyword (pyStrip (ls.get ⟨j, Nat.lt_trans hj hi⟩)) = true := by
  induction ls with
  | nil => simp [chooseCandidate] at h
  | cons ln rest ih =>
    simp only [chooseCandidate] at h
    by_cases hd : isDateLine (pyStrip ln) = true
    · rw [if_pos hd] at h; simp at h
    · have hd' : isDateLine (pyStrip ln) = false := by simpa using hd
      rw [if_neg hd] at h
      by_cases hk : hasLabelKeyword (pyStrip ln) = true
      · rw [if_pos hk] at h
        obtain ⟨i, hi, hc, hcd, hck, hprev⟩ := ih h
        refine ⟨i + 1, Nat.succ_lt_succ hi, hc, hcd, hck, ?_⟩
        intro j hj
        cases j with
        | zero => exact ⟨hd', hk⟩
        | succ j' => exact hprev j' (Nat.lt_of_succ_lt_succ hj)
      · have hk' : hasLabelKeyword (pyStrip ln) = false := by simpa using hk
        rw [if_neg hk] at h
        have hc : c = pyStrip ln := (Option.some_inj.mp h).symm
        refine ⟨0, Nat.succ_pos _, hc, hc ▸ hd', hc ▸ hk', ?_⟩
        intro j hj
        exact absurd hj (Nat.not_lt_zero j)

theorem chooseAddress_spec (ls : List String) (s : String)
    (h : chooseAddress ls = s) (hne : s ≠ "") :
    ∃ i, ∃ hi : i < ls.length, s = pyStrip (ls.get ⟨i, hi⟩) ∧
      isDateLine s = false ∧ isTimeToken s = false ∧
      hasDigitOrComma s = true ∧
      ∀ j, ∀ hj : j < i,
        isDateLine (pyStrip (ls.get ⟨j, Nat.lt_trans hj hi⟩)) = false ∧
        isTimeToken (pyStrip (ls.get ⟨j, Nat.lt_trans hj hi⟩)) = false ∧
        hasDigitOrComma (pyStrip (ls.get ⟨j, Nat.lt_trans hj hi⟩)) = false := by
  induction ls with
  | nil =>
    rw [chooseAddress] at h
    exact absurd h.symm hne
  | cons ln rest ih =>
    simp only [chooseAddress] at h
    by_cases hstop : (isDateLine (pyStrip ln) || isTimeToken (pyStrip ln)) = true
    · rw [if_pos hstop] at h
      exact absurd h.symm hne
    · have hstop' := hstop
      rw [Bool.or_eq_true, not_or] at hstop'
      have hd' : isDateLine (pyStrip ln) = false := by simpa using hstop'.1
      have ht' : isTimeToken (pyStrip ln) = false := by simpa using hstop'.2
      rw [if_neg hstop] at h
      by_cases hdig : hasDigitOrComma (pyStrip ln) = true
      · rw [if_pos hdig] at h
        have hc : s = pyStrip ln := h.symm
        refine ⟨0, Nat.succ_pos _, hc, hc ▸ hd', hc ▸ ht', hc ▸ hdig, ?_⟩
        intro j hj
        exact absurd hj (Nat.not_lt_zero j)
      · have hdig' : hasDigitOrComma (pyStrip ln) = false := by simpa using hdig
        rw [if_neg hdig] at h
        obtain ⟨i, hi, hc, hcd, hct, hcdig, hprev⟩ := ih h
        refine ⟨i + 1, Nat.succ_lt_succ hi, hc, hcd, hct, hcdig, ?_⟩
        intro j hj
        cases j with
        | zero => exact ⟨hd', ht', hdig'⟩
        | succ j' => exact hprev j' (Nat.lt_of_succ_lt_succ hj)

/-! ### C4: the candidate scan starts at the second non-blank line, not
after the time line -/

/-- A segment body whose time line is not the first non-blank line. -/
def c4Body : List String := ["xx", "15:30", "A  B  C  D"]

/-- C4 counterexample: in this segment the time line is the second
non-blank line (index 1), and the candidate selected by the scan is that
very time line `15:30` — a line not strictly after the time line — so
the record gets no teams and the parser output is empty, while the
claimed selection rule would pick `A  B  C  D`. -/
theorem C4_counterexample :
    pickTime (bodyLines ("04/10/2025", c4Body)) = some "15:30" ∧
    (bodyLines ("04/10/2025", c4Body)).get? 1 = some "15:30" ∧
    chooseCandidate ((bodyLines ("04/10/2025", c4Body)).drop 1) =
      some "15:30" ∧
    parse_fcbq_schedule "04/10/2025\nxx\n15:30\nA  B  C  D" "Europe/Madrid"
      90 "" = [] := by
  refine ⟨by decide, by decide, by decide, by decide⟩

/-- C4 amended: the candidate line is the first element of the scan list
`lines[1:]` — the non-blank lines from the second onward, regardless of
where the time line was found — that is not a date line, skipping lines
containing a section-label keyword.  (When the time line is the first
non-blank line this coincides with "first line strictly after the time
line".) -/
theorem C4_amended (lines : List String) (c : String)
    (h : chooseCandidate (lines.drop 1) = some c) :
    ∃ i, ∃ hi : i < (lines.drop 1).length,
      c = pyStrip ((lines.drop 1).get ⟨i, hi⟩) ∧
      isDateLine c = false ∧ hasLabelKeyword c = false ∧
      ∀ j, ∀ hj : j < i,
        isDateLine (pyStrip ((lines.drop 1).get
          ⟨j, Nat.lt_trans hj hi⟩)) = false ∧
        hasLabelKeyword (pyStrip ((lines.drop 1).get
          ⟨j, Nat.lt_trans hj hi⟩)) = true :=
  chooseCandidate_spec (lines.drop 1) c h

theorem C4_witness :
    ∃ i, ∃ hi : i < ((["15:30", "Categoria X", "A  B"] : List String).drop
        1).length,
      ("A  B" : String) =
        pyStrip (((["15:30", "Categoria X", "A  B"] : List String).drop
          1).get ⟨i, hi⟩) ∧
      isDateLine "A  B" = false ∧ hasLabelKeyword "A  B" = false ∧
      ∀ j, ∀ hj : j < i,
        isDateLine (pyStrip (((["15:30", "Categoria X", "A  B"] :
          List String).drop 1).get ⟨j, Nat.lt_trans hj hi⟩)) = false ∧
        hasLabelKeyword (pyStrip (((["15:30", "Categoria X", "A  B"] :
          List String).drop 1).get ⟨j, Nat.lt_trans hj hi⟩)) = true :=
  C4_amended ["15:30", "Categoria X", "A  B"] "A  B" (by decide)

/-! ### C5: the address scan starts at the third non-blank line, not
after the candidate line -/

/-- A segment body whose candidate line is the third non-blank line. -/
def c5Body : List String :=
  ["15:30", "Camp de joc", "A  B  3A DIV  PAV 7", "CARRER MAJOR 5"]

def c5Text : String :=
  "04/10/2025\n15:30\nCamp de joc\nA  B  3A DIV  PAV 7\nCARRER MAJOR 5"

/-- C5 counterexample: here the candidate line sits at index 2 (the
keyword line at index 1 was skipped), and the address scan — which
always starts at index 2 — picks the candidate line itself (it contains
digits), not a line strictly after it; the claimed rule would pick
`CARRER MAJOR 5`.  The emitted location shows the candidate line
duplicated into the address position. -/
theorem C5_counterexample :
    chooseCandidate ((bodyLines ("04/10/2025", c5Body)).drop 1) =
      some "A  B  3A DIV  PAV 7" ∧
    chooseAddress ((bodyLines ("04/10/2025", c5Body)).drop 2) =
      "A  B  3A DIV  PAV 7" ∧
    (parse_fcbq_schedule c5Text "Europe/Madrid" 90 "").map Game.location =
      ["PAV 7 — A  B  3A DIV  PAV 7"] := by
  refine ⟨by decide, by decide, by decide⟩

/-- C5 amended: the address line is the first element of the scan list
`lines[2:]` — the non-blank lines from the third onward, regardless of
where the candidate line was found — that is neither a date line nor a
bare time line and contains a digit or a comma; the scan stops, leaving
the address empty, at the first date or time line.  (When the candidate
is the second non-blank line this coincides with "first such line
strictly after the candidate line".) -/
theorem C5_amended (lines : List String) (s : String)
    (h : chooseAddress (lines.drop 2) = s) (hne : s ≠ "") :
    ∃ i, ∃ hi : i < (lines.drop 2).length,
      s = pyStrip ((lines.drop 2).get ⟨i, hi⟩) ∧
      isDateLine s = false ∧ isTimeToken s = false ∧
      hasDigitOrComma s = true ∧
      ∀ j, ∀ hj : j < i,
        isDateLine (pyStrip ((lines.drop 2).get
          ⟨j, Nat.lt_trans hj hi⟩)) = false ∧
        isTimeToken (pyStrip ((lines.drop 2).get
          ⟨j, Nat.lt_trans hj hi⟩)) = false ∧
        hasDigitOrComma (pyStrip ((lines.drop 2).get
          ⟨j, Nat.lt_trans hj hi⟩)) = false :=
  chooseAddress_spec (lines.drop 2) s h hne

theorem C5_witness :
    ∃ i, ∃ hi : i < ((["15:30", "T  V", "CARRER 5"] : List String).drop
        2).length,
      ("CARRER 5" : String) =
        pyStrip (((["15:30", "T  V", "CARRER 5"] : List String).drop
          2).get ⟨i, hi⟩) ∧
      isDateLine "CARRER 5" = false ∧ isTimeToken "CARRER 5" = false ∧
      hasDigitOrComma "CARRER 5" = true ∧
      ∀ j, ∀ hj : j < i,
        isDateLine (pyStrip (((["15:30", "T  V", "CARRER 5"] :
          List String).drop 2).get ⟨j, Nat.lt_trans hj hi⟩)) = false ∧
        isTimeToken (pyStrip (((["15:30", "T  V", "CARRER 5"] :
          List String).drop 2).get ⟨j, Nat.lt_trans hj hi⟩)) = false ∧
        hasDigitOrComma (pyStrip (((["15:30", "T  V", "CARRER 5"] :
          List String).drop 2).get ⟨j, Nat.lt_trans hj hi⟩)) = false :=
  C5_amended ["15:30", "T  V", "CARRER 5"] "CARRER 5" (by decide) (by decide)

/-! ### C6: segments without a time line are dropped, not fatal -/

/-- C6: a segment none of whose body lines strips to an `H:MM` time
token yields no game, and the surrounding segments are processed exactly
as if the segment were absent — extraction is a total function, so no
error can abort the run. -/
theorem C6_no_time_line_dropped (tzname url : String) (m : Int)
    (seg : String × List String)
    (h : ∀ ln ∈ seg.2, isTimeToken (pyStrip ln) = false) :
    extractGame tzname m url seg = none ∧
    ∀ pre post : List (String × List String),
      (pre ++ seg :: post).filterMap (extractGame tzname m url) =
        pre.filterMap (extractGame tzname m url) ++
        post.filterMap (extractGame tzname m url) := by
  have hall : ∀ ln ∈ bodyLines seg, isTimeToken (pyStrip ln) = false := by
    intro ln hln
    exact h ln (List.mem_filter.mp hln).1
  have hpt : pickTime (bodyLines seg) = none := by
    cases hb : bodyLines seg with
    | nil => rw [pickTime]
    | cons first rest =>
      have hall' : ∀ ln ∈ first :: rest, isTimeToken (pyStrip ln) = false :=
        hb ▸ hall
      rw [pickTime]
      rw [hall' first (List.mem_cons_self _ _), if_neg Bool.false_ne_true]
      refine List.find?_eq_none.mpr ?_
      intro x hx
      simp [hall' x hx]
  have hnone : extractGame tzname m url seg = none := by
    simp only [extractGame, hpt]
  refine ⟨hnone, ?_⟩
  intro pre post
  simp [List.filterMap_append, List.filterMap_cons, hnone]

theorem C6_witness :
    extractGame "Europe/Madrid" 90 "" ("04/10/2025", ["hello"]) = none ∧
    ([("04/10/2025", c1Body)] ++ ("04/10/2025", ["hello"]) ::
        ([] : List (String × List String))).filterMap
      (extractGame "Europe/Madrid" 90 "") =
      [("04/10/2025", c1Body)].filterMap (extractGame "Europe/Madrid" 90 "")
        ++ ([] : List (String × List String)).filterMap
          (extractGame "Europe/Madrid" 90 "") :=
  ⟨(C6_no_time_line_dropped "Europe/Madrid" "" 90 ("04/10/2025", ["hello"])
      (by decide)).1,
   (C6_no_time_line_dropped "Europe/Madrid" "" 90 ("04/10/2025", ["hello"])
      (by decide)).2 [("04/10/2025", c1Body)] []⟩

/-! ### C7: timestamps -/

/-- The record emitted for the example segment with duration 0. -/
def c7Game : Game :=
  { c1Game with end_ := ⟨mkWallMinutes 2025 10 4 15 30, some "Europe/Madrid"⟩ }

/-- C7 counterexample: with a configured default duration of 0 minutes
(the script reads the duration with `int(...)` and never checks its
sign) the emitted record has `end` equal to `start`, not strictly
after it. -/
theorem C7_counterexample :
    parse_fcbq_schedule c1Text "Europe/Madrid" 0 "" = [c7Game] ∧
    c7Game.end_ = c7Game.start ∧
    ¬ c7Game.start.wallMinutes < c7Game.end_.wallMinutes := by
  refine ⟨by decide, by decide, by decide⟩

/-- C7 amended: every emitted record's start and end carry the
configured timezone, `end = start + default_minutes`, and `end` is
strictly after `start` whenever the configured duration is positive. -/
theorem C7_amended (text tzname url : String) (m : Int) (g : Game)
    (hg : g ∈ parse_fcbq_schedule text tzname m url) :
    g.start.tz = some tzname ∧ g.end_.tz = some tzname ∧
    g.end_.wallMinutes = g.start.wallMinutes + m ∧
    (0 < m → g.start.wallMinutes < g.end_.wallMinutes) := by
  obtain ⟨⟨seg, hseg, hex⟩, _, _⟩ := mem_parse hg
  obtain ⟨tl, wall, hpt, hps, hgeq⟩ := extractGame_some hex
  subst hgeq
  refine ⟨rfl, rfl, rfl, ?_⟩
  intro hm
  show wall < wall + m
  omega

theorem C7_witness :
    c1Game.start.tz = some "Europe/Madrid" ∧
    c1Game.end_.tz = some "Europe/Madrid" ∧
    c1Game.end_.wallMinutes = c1Game.start.wallMinutes + 90 ∧
    c1Game.start.wallMinutes < c1Game.end_.wallMinutes := by
  have h := C7_amended c1Text "Europe/Madrid" "" 90 c1Game (by decide)
  exact ⟨h.1, h.2.1, h.2.2.1, h.2.2.2 (by decide)⟩

/-! ### C8: only whole-line date tokens start segments -/

/-- The number of boundary lines of a line list: lines that consist
exactly of a date token and are followed by a newline (i.e. are not the
final line). -/
def countBoundary : List String → Nat
  | [] => 0
  | l :: rest =>
    (if isDateLine l && !rest.isEmpty then 1 else 0) + countBoundary rest

theorem segAux_dates (ls : List String) :
    ∀ acc, (∀ p : String × List String, acc = some p →
      isDateLine p.1 = true) →
    ∀ seg ∈ segAux ls acc, isDateLine seg.1 = true ∧
      (seg.1 ∈ ls ∨ ∃ p : String × List String,
        acc = some p ∧ seg.1 = p.1) := by
  induction ls with
  | nil =>
    intro acc hacc seg hseg
    cases acc with
    | none => simp [segAux] at hseg
    | some p =>
      simp only [segAux, List.mem_singleton] at hseg
      subst hseg
      exact ⟨hacc p rfl, Or.inr ⟨p, rfl, rfl⟩⟩
  | cons l rest ih =>
    intro acc hacc seg hseg
    simp only [segAux] at hseg
    by_cases hb : (isDateLine l && !rest.isEmpty) = true
    · rw [if_pos hb] at hseg
      have hl : isDateLine l = true := by
        simp only [Bool.and_eq_true] at hb
        exact hb.1
      cases acc with
      | none =>
        have := ih (some (l, [])) (by intro p hp; cases hp; exact hl) seg hseg
        obtain ⟨hd, hmem | ⟨p, hp, hp1⟩⟩ := this
        · exact ⟨hd, Or.inl (List.mem_cons_of_mem l hmem)⟩
        · cases hp
          exact ⟨hd, Or.inl (hp1 ▸ List.mem_cons_self l rest)⟩
      | some p =>
        rcases List.mem_cons.mp hseg with hhd | htl
        · subst hhd
          exact ⟨hacc p rfl, Or.inr ⟨p, rfl, rfl⟩⟩
        · have := ih (some (l, [])) (by intro q hq; cases hq; exact hl) seg htl
          obtain ⟨hd, hmem | ⟨q, hq, hq1⟩⟩ := this
          · exact ⟨hd, Or.inl (List.mem_cons_of_mem l hmem)⟩
          · cases hq
            exact ⟨hd, Or.inl (hq1 ▸ List.mem_cons_self l rest)⟩
    · rw [if_neg hb] at hseg
      cases acc with
      | none =>
        have := ih none (by intro p hp; cases hp) seg hseg
        obtain ⟨hd, hmem | ⟨p, hp, _⟩⟩ := this
        · exact ⟨hd, Or.inl (List.mem_cons_of_mem l hmem)⟩
        · cases hp
      | some p =>
        have := ih (some (p.1, l :: p.2))
          (by intro q hq; cases hq; exact hacc p rfl) seg hseg
        obtain ⟨hd, hmem | ⟨q, hq, hq1⟩⟩ := this
        · exact ⟨hd, Or.inl (List.mem_cons_of_mem l hmem)⟩
        · cases hq
          exact ⟨hd, Or.inr ⟨p, rfl, hq1⟩⟩

theorem segAux_length (ls : List String) :
    (∀ p : String × List String,
      (segAux ls (some p)).length = countBoundary ls + 1) ∧
    (segAux ls none).length = countBoundary ls := by
  induction ls with
  | nil =>
    exact ⟨fun p => by simp [segAux, countBoundary],
      by simp [segAux, countBoundary]⟩
  | cons l rest ih =>
    obtain ⟨ihs, ihn⟩ := ih
    by_cases hb : (isDateLine l && !rest.isEmpty) = true
    · constructor
      · intro p
        simp only [segAux, countBoundary]
        rw [if_pos hb, if_pos hb]
        simp only [List.length_cons, ihs (l, [])]
        omega
      · simp only [segAux, countBoundary]
        rw [if_pos hb, if_pos hb]
        rw [ihs (l, [])]
        omega
    · constructor
      · intro p
        simp only [segAux, countBoundary]
        rw [if_neg hb, if_neg hb]
        rw [ihs (p.1, l :: p.2)]
        omega
      · simp only [segAux, countBoundary]
        rw [if_neg hb, if_neg hb]
        rw [ihn]
        omega

/-- C8: every segment produced by the splitter is headed by a line of
the input that consists exactly of a `DD/MM/YYYY` token (so a date-like
substring embedded mid-line never starts a segment), and the number of
segments equals the number of full-line date tokens followed by a
newline. -/
theorem C8_date_lines_only (t : String) :
    (∀ seg ∈ segments (pyLines t), isDateLine seg.1 = true ∧
      seg.1 ∈ pyLines t) ∧
    (segments (pyLines t)).length = countBoundary (pyLines t) := by
  constructor
  · intro seg hseg
    have h := segAux_dates (pyLines t) none (by intro p hp; cases hp)
      seg hseg
    obtain ⟨hd, hmem | ⟨p, hp, _⟩⟩ := h
    · exact ⟨hd, hmem⟩
    · cases hp
  · exact (segAux_length (pyLines t)).2

theorem C8_witness :
    isDateLine "04/10/2025" = true ∧
    ("04/10/2025" : String) ∈ pyLines c1Text ∧
    (segments (pyLines c1Text)).length = countBoundary (pyLines c1Text) :=
  ⟨((C8_date_lines_only c1Text).1 ("04/10/2025", c1Body) (by decide)).1,
   ((C8_date_lines_only c1Text).1 ("04/10/2025", c1Body) (by decide)).2,
   (C8_date_lines_only c1Text).2⟩

/-! ### C9: UID structure -/

theorem sha1Digest_length (s : String) : (sha1Digest s).length = 20 := by
  simp [sha1Digest, wordBytes]

theorem bytesToHexChars_length (l : List Nat) :
    (bytesToHexChars l).length = 2 * l.length := by
  induction l with
  | nil => rfl
  | cons b t ih =>
    simp only [bytesToHexChars, List.length_cons, ih]
    omega

theorem sha1Hex_length (s : String) : (sha1Hex s).length = 40 := by
  show (bytesToHexChars (sha1Digest s)).length = 40
  rw [bytesToHexChars_length, sha1Digest_length]

theorem hexDigit_mem (n : Nat) : hexDigit n ∈ hexCharsLower := by
  have h : n % 16 < 16 := Nat.mod_lt n (by omega)
  have key : ∀ i : Fin 16, hexCharsLower.getD i.val '0' ∈ hexCharsLower := by
    decide
  exact key ⟨n % 16, h⟩

theorem bytesToHexChars_mem (l : List Nat) :
    ∀ c ∈ bytesToHexChars l, c ∈ hexCharsLower := by
  induction l with
  | nil => intro c hc; simp [bytesToHexChars] at hc
  | cons b t ih =>
    intro c hc
    simp only [bytesToHexChars, List.mem_cons] at hc
    rcases hc with rfl | rfl | hc
    · exact hexDigit_mem _
    · exact hexDigit_mem _
    · exact ih c hc

theorem hexDigit_inj {a b : Nat} (ha : a < 16) (hb : b < 16)
    (h : hexDigit a = hexDigit b) : a = b := by
  have key : ∀ i j : Fin 16, hexCharsLower.getD i.val '0' =
      hexCharsLower.getD j.val '0' → i = j := by decide
  have hf := key ⟨a, ha⟩ ⟨b, hb⟩ (by
    unfold hexDigit at h
    rwa [Nat.mod_eq_of_lt ha, Nat.mod_eq_of_lt hb] at h)
  exact congrArg Fin.val hf

theorem wordBytes_lt (n : Nat) : ∀ b ∈ wordBytes n, b < 256 := by
  intro b hb
  simp only [wordBytes, List.mem_cons, List.not_mem_nil, or_false] at hb
  rcases hb with rfl | rfl | rfl | rfl
  · exact Nat.mod_lt _ (by omega)
  · exact Nat.mod_lt _ (by omega)
  · exact Nat.mod_lt _ (by omega)
  · exact Nat.mod_lt _ (by omega)

theorem sha1Digest_lt (s : String) : ∀ b ∈ sha1Digest s, b < 256 := by
  intro b hb
  simp only [sha1Digest, List.mem_append] at hb
  rcases hb with (((h | h) | h) | h) | h <;> exact wordBytes_lt _ b h

theorem bytesToHexChars_inj (l₁ : List Nat) :
    ∀ l₂, (∀ b ∈ l₁, b < 256) → (∀ b ∈ l₂, b < 256) →
    bytesToHexChars l₁ = bytesToHexChars l₂ → l₁ = l₂ := by
  induction l₁ with
  | nil =>
    intro l₂ _ _ h
    cases l₂ with
    | nil => rfl
    | cons b t => simp [bytesToHexChars] at h
  | cons a t ih =>
    intro l₂ h1 h2 h
    cases l₂ with
    | nil => simp [bytesToHexChars] at h
    | cons b t2 =>
      simp only [bytesToHexChars, List.cons.injEq] at h
      obtain ⟨e1, e2, e3⟩ := h
      have ha : a < 256 := h1 a (List.mem_cons_self _ _)
      have hb : b < 256 := h2 b (List.mem_cons_self _ _)
      have d1 : a / 16 = b / 16 := hexDigit_inj (by omega) (by omega) e1
      have d2 : a % 16 = b % 16 :=
        hexDigit_inj (Nat.mod_lt _ (by omega)) (Nat.mod_lt _ (by omega)) e2
      have hab : a = b := by omega
      subst hab
      rw [ih t2 (fun x hx => h1 x (List.mem_cons_of_mem _ hx))
        (fun x hx => h2 x (List.mem_cons_of_mem _ hx)) e3]

theorem sha_uid_eq_iff (s₁ s₂ : String) :
    sha_uid s₁ = sha_uid s₂ ↔ sha1Digest s₁ = sha1Digest s₂ := by
  constructor
  · intro h
    have hd := congrArg String.data h
    rw [sha_uid, sha_uid, String.data_append, String.data_append] at hd
    have hx := List.append_cancel_right hd
    exact bytesToHexChars_inj _ _ (sha1Digest_lt s₁) (sha1Digest_lt s₂) hx
  · intro h
    unfold sha_uid sha1Hex
    rw [h]

/-- C9: every emitted event's UID is the lowercase 40-hex-character
SHA-1 digest of its identity key followed by the literal suffix
`@auto-fixtures`, and two UIDs coincide exactly when the SHA-1 digests
of the identity keys coincide. -/
theorem C9_uid_structure :
    (∀ s, sha_uid s = sha1Hex s ++ "@auto-fixtures") ∧
    (∀ s, (sha1Hex s).length = 40) ∧
    (∀ s, ∀ c ∈ (sha1Hex s).data, c ∈ hexCharsLower) ∧
    (∀ s₁ s₂, sha_uid s₁ = sha_uid s₂ ↔ sha1Digest s₁ = sha1Digest s₂) ∧
    (∀ tpl g, (mkEvent tpl g).uid = sha_uid g.game_id) :=
  ⟨fun _ => rfl, sha1Hex_length,
   fun _ c hc => bytesToHexChars_mem _ c hc,
   sha_uid_eq_iff, fun _ _ => rfl⟩

set_option maxRecDepth 8192 in
theorem C9_witness :
    sha_uid "x" = sha1Hex "x" ++ "@auto-fixtures" ∧
    (sha1Hex "x").length = 40 ∧
    ('1' : Char) ∈ hexCharsLower ∧
    sha_uid "x" = sha_uid "x" :=
  ⟨C9_uid_structure.1 "x", C9_uid_structure.2.1 "x",
   C9_uid_structure.2.2.1 "x" '1' (by decide),
   (C9_uid_structure.2.2.2.1 "x" "x").mpr rfl⟩

/-! ### C10: the pipeline preserves text order -/

theorem segAux_fst_sublist (ls : List String) :
    (∀ d b, ((segAux ls (some (d, b))).map Prod.fst).Sublist (d :: ls)) ∧
    ((segAux ls none).map Prod.fst).Sublist ls := by
  induction ls with
  | nil =>
    constructor
    · intro d b
      simp [segAux]
    · simp [segAux]
  | cons l rest ih =>
    obtain ⟨ihs, ihn⟩ := ih
    by_cases hb : (isDateLine l && !rest.isEmpty) = true
    · constructor
      · intro d b
        simp only [segAux]
        rw [if_pos hb]
        simp only [List.map_cons]
        exact List.Sublist.cons₂ d (ihs l [])
      · simp only [segAux]
        rw [if_pos hb]
        exact ihs l []
    · constructor
      · intro d b
        simp only [segAux]
        rw [if_neg hb]
        exact (ihs d (l :: b)).trans
          (List.Sublist.cons₂ d (List.Sublist.cons l (List.Sublist.refl rest)))
      · simp only [segAux]
        rw [if_neg hb]
        exact List.Sublist.cons l ihn

/-- C10: the serialized events are the retained games mapped in order;
the retained games are a sublist (order-preserving selection) of the
games extracted segment by segment; the parse result is exactly the
validity filter of the extracted games; and the segment date lines are
a sublist of the text lines, in text order. -/
theorem C10_order_preserved (text tzname url incRaw tpl : String)
    (m : Int) :
    build_ics tpl (mainGames text tzname m url incRaw) =
      (mainGames text tzname m url incRaw).map (mkEvent tpl) ∧
    (mainGames text tzname m url incRaw).Sublist
      ((segments (pyLines text)).filterMap (extractGame tzname m url)) ∧
    parse_fcbq_schedule text tzname m url =
      ((segments (pyLines text)).filterMap
        (extractGame tzname m url)).filter
        (fun g => g.home ≠ "" && g.away ≠ "") ∧
    ((segments (pyLines text)).map Prod.fst).Sublist (pyLines text) := by
  have hparse : (parse_fcbq_schedule text tzname m url).Sublist
      ((segments (pyLines text)).filterMap (extractGame tzname m url)) :=
    List.filter_sublist _
  have hmain : (mainGames text tzname m url incRaw).Sublist
      (parse_fcbq_schedule text tzname m url) := by
    simp only [mainGames]
    by_cases hc : pyLower (pyStrip incRaw) ≠ ""
    · rw [if_pos hc]; exact List.filter_sublist _
    · rw [if_neg hc]
  exact ⟨rfl, hmain.trans hparse, rfl, (segAux_fst_sublist (pyLines text)).2⟩

end BuildCalendar
